import Mathlib

/-
Shallow embedding of the ost-export extraction-and-export pipeline
(src/unnamed/part_000): path sanitizer, format serializers (EML, vCard,
iCal), attachment drain, mailbox tree walker, and filesystem exporter.

External effects are modelled explicitly: the PST reader's cursor is a
scripted list of child events (an item or a cursor fault), attachment
streams are scripted chunk lists with optional fault points, the
filesystem is an environment of per-path failure flags, and the two
ambient impurities of the EML serializer (Math.random boundary seed,
new Date() clock) are explicit parameters.  Thrown JS exceptions become
Except values; every try/catch of the source appears as an explicit
match on an Except.
-/

/-! ## String helpers (list-based, so that they reduce in the kernel) -/

def isForbidden (c : Char) : Bool :=
  c == '<' || c == '>' || c == ':' || c == '"' || c == '/' || c == '\\' ||
  c == '|' || c == '?' || c == '*'

/-- Embeds `sanitizeFilename`: replace `[<>:"/\\|?*]` by underscore, then
slice to at most 180 characters. -/
def sanitizeFilename (s : String) : String :=
  String.mk ((s.data.map (fun c => if isForbidden c then '_' else c)).take 180)

def strStartsWith (s pre : String) : Bool := pre.data.isPrefixOf s.data

def strNonEmpty (s : String) : Bool := !s.data.isEmpty

def wsChar (c : Char) : Bool := c.isWhitespace

def trimList (l : List Char) : List Char :=
  ((l.dropWhile wsChar).reverse.dropWhile wsChar).reverse

def strTrim (s : String) : String := String.mk (trimList s.data)

def splitChar (sep : Char) : List Char → List (List Char)
  | [] => [[]]
  | c :: rest =>
    if c = sep then [] :: splitChar sep rest
    else match splitChar sep rest with
      | [] => [[c]]
      | g :: gs => (c :: g) :: gs

def hasSubstr (s pat : String) : Bool :=
  s.data.tails.any (fun t => pat.data.isPrefixOf t)

def stripQuotes (s : String) : String :=
  String.mk (s.data.filter (fun c => !(c == '"')))

/-! ## Dates

A JS `Date` is opaque to this pipeline except for the two renderings the
code asks of it, so it is embedded as that pair of renderings. -/

structure DateV where
  utc : String
  iso : String
deriving DecidableEq

/-- Embeds `formatDate`: empty for a missing date, else the ISO rendering
with `:` and `.` replaced by `-`. -/
def formatDate : Option DateV → String
  | none => ""
  | some d => String.mk (d.iso.data.map (fun c => if c == ':' || c == '.' then '-' else c))

/-! ## Extracted records -/

structure AttachRec where
  filename : String
  data : List Nat
  contentType : String
deriving DecidableEq

structure MessageData where
  subject : String
  sender : String
  recipients : List String
  body : String
  sentDate : Option DateV
  receivedDate : Option DateV
  headers : String
  attachments : List AttachRec
deriving DecidableEq

structure ContactData where
  fullName : String
  email : String
  businessPhone : String
  mobilePhone : String
  homePhone : String
  address : String
  company : String
  jobTitle : String
deriving DecidableEq

structure AppointmentData where
  subject : String
  location : String
  startTime : Option DateV
  endTime : Option DateV
  body : String
deriving DecidableEq

inductive FolderData where
  | mk (name : String) (messages : List MessageData) (contacts : List ContactData)
       (appointments : List AppointmentData) (subfolders : List FolderData)

def FolderData.name : FolderData → String
  | .mk n _ _ _ _ => n

def FolderData.messages : FolderData → List MessageData
  | .mk _ ms _ _ _ => ms

def FolderData.contacts : FolderData → List ContactData
  | .mk _ _ cs _ _ => cs

def FolderData.appointments : FolderData → List AppointmentData
  | .mk _ _ _ as _ => as

def FolderData.subfolders : FolderData → List FolderData
  | .mk _ _ _ _ ss => ss

/-! ## Base64 (Buffer.toString base64, wrapped at 76 characters) -/

def b64Alphabet : List Char :=
  "ABCDEFGHIJKLMNOPQRSTUVWXYZabcdefghijklmnopqrstuvwxyz0123456789+/".data

def b64Char (n : Nat) : Char := b64Alphabet.getD n 'A'

def b64Encode : List Nat → List Char
  | [] => []
  | [a] => [b64Char (a / 4), b64Char (a % 4 * 16), '=', '=']
  | [a, b] => [b64Char (a / 4), b64Char (a % 4 * 16 + b / 16), b64Char (b % 16 * 4), '=']
  | a :: b :: c :: rest =>
    [b64Char (a / 4), b64Char (a % 4 * 16 + b / 16),
     b64Char (b % 16 * 4 + c / 64), b64Char (c % 64)] ++ b64Encode rest

def chunk76 (l : List Char) : List (List Char) :=
  match l with
  | [] => []
  | c :: rest => (c :: rest.take 75) :: chunk76 (rest.drop 75)
termination_by l.length
decreasing_by simp; omega

/-- Embeds `attachment.data.toString('base64').match(/.{1,76}/g)?.join('\r\n') || ''`. -/
def wrapBase64 (bytes : List Nat) : String :=
  String.intercalate "\r\n" ((chunk76 (b64Encode bytes)).map String.mk)

/-! ## EML serializer (createEMLContent)

The `Math.random()` boundary seed and the `new Date()` clock are the two
ambient inputs of the source function; they are explicit parameters here. -/

def bodyLooksHtml (b : String) : Bool := hasSubstr b "<html" || hasSubstr b "<body"

/-- Embeds `message.sentDate || message.receivedDate || new Date()`. -/
def chooseDate (m : MessageData) (now : DateV) : DateV :=
  match m.sentDate with
  | some d => d
  | none => match m.receivedDate with
    | some d => d
    | none => now

def emlContentTypeLine (boundary : String) (m : MessageData) : String :=
  if 0 < m.attachments.length then
    "Content-Type: multipart/mixed; boundary=\"" ++ boundary ++ "\""
  else if bodyLooksHtml m.body then "Content-Type: text/html; charset=utf-8"
  else "Content-Type: text/plain; charset=utf-8"

def emlBodyTypeLine (b : String) : String :=
  if bodyLooksHtml b then "Content-Type: text/html; charset=utf-8"
  else "Content-Type: text/plain; charset=utf-8"

/-- Embeds the header array of `createEMLContent` before `.filter(Boolean)`;
the final entry is `message.headers || ''`. -/
def emlHeaderEntriesRaw (seed : String) (now : DateV) (m : MessageData) : List String :=
  ["From: " ++ m.sender,
   "To: " ++ String.intercalate ", " m.recipients,
   "Subject: " ++ m.subject,
   "Date: " ++ (chooseDate m now).utc,
   "MIME-Version: 1.0",
   emlContentTypeLine ("boundary_" ++ seed) m,
   "X-Mailer: pst-extractor",
   m.headers]

/-- Embeds the `.filter(Boolean)` applied to the header array: a JS string
is truthy exactly when it is non-empty. -/
def emlHeaderLines (seed : String) (now : DateV) (m : MessageData) : List String :=
  (emlHeaderEntriesRaw seed now m).filter strNonEmpty

def emlAttachmentPart (boundary : String) (a : AttachRec) : List String :=
  ["--" ++ boundary,
   "Content-Type: " ++ (if a.contentType = "" then "application/octet-stream" else a.contentType),
   "Content-Disposition: attachment; filename=\"" ++ stripQuotes a.filename ++ "\"",
   "Content-Transfer-Encoding: base64",
   "",
   wrapBase64 a.data]

def createEMLContent (seed : String) (now : DateV) (m : MessageData) : String :=
  let boundary := "boundary_" ++ seed
  let headerBlock := String.intercalate "\r\n" (emlHeaderLines seed now m)
  if m.attachments.length = 0 then
    headerBlock ++ "\r\n\r\n" ++ m.body
  else
    String.intercalate "\r\n"
      ([headerBlock, "", "--" ++ boundary, emlBodyTypeLine m.body, "", m.body]
       ++ (m.attachments.map (emlAttachmentPart boundary)).flatten
       ++ ["--" ++ boundary ++ "--"])

/-! ## vCard serializer (createVCardContent) -/

def createVCardContent (c : ContactData) : String :=
  String.intercalate "\r\n" (([
    "BEGIN:VCARD",
    "VERSION:3.0",
    "FN:" ++ c.fullName,
    if c.email = "" then "" else "EMAIL:" ++ c.email,
    if c.businessPhone = "" then "" else "TEL;TYPE=WORK:" ++ c.businessPhone,
    if c.mobilePhone = "" then "" else "TEL;TYPE=CELL:" ++ c.mobilePhone,
    if c.homePhone = "" then "" else "TEL;TYPE=HOME:" ++ c.homePhone,
    if c.address = "" then "" else "ADR:;;" ++ c.address,
    if c.company = "" then "" else "ORG:" ++ c.company,
    if c.jobTitle = "" then "" else "TITLE:" ++ c.jobTitle,
    "END:VCARD"
  ]).filter strNonEmpty)

/-! ## iCal serializer (createICalContent) -/

def createICalContent (a : AppointmentData) : String :=
  String.intercalate "\r\n" (([
    "BEGIN:VCALENDAR",
    "VERSION:2.0",
    "BEGIN:VEVENT",
    "SUMMARY:" ++ a.subject,
    "LOCATION:" ++ a.location,
    match a.startTime with
    | some _ => "DTSTART:" ++ formatDate a.startTime
    | none => "",
    match a.endTime with
    | some _ => "DTEND:" ++ formatDate a.endTime
    | none => "",
    "DESCRIPTION:" ++ a.body,
    "END:VEVENT",
    "END:VCALENDAR"
  ]).filter strNonEmpty)

/-! ## Attachment drain

An attachment handle is scripted: `primary = some reads` means the chunked
loop's successive `stream.read(buffer)` calls return the given chunks and
then end of stream; `primary = none` means a read raises mid-loop (the
partially accumulated chunks are discarded, as in the source).  `fallback`
scripts the byte-at-a-time loop the same way. -/

structure AttEnv where
  getFails : Bool
  filename : String
  longFilename : String
  hasStream : Bool
  primary : Option (List (List Nat))
  size : Option Nat
  fallback : Except String (List Nat)
  mimeTag : String

/-- Embeds the primary do/while drain: push a chunk when its read returned
more than zero bytes, keep looping only while a read filled the whole
8176-byte buffer. -/
def drainChunks : List (List Nat) → List (List Nat)
  | [] => []
  | c :: rest =>
    if c.length = 8176 then c :: drainChunks rest
    else if 0 < c.length then [c]
    else []

def attachName (a : AttEnv) : String :=
  sanitizeFilename (if a.longFilename = "" then a.filename else a.longFilename)

def attachContentType (a : AttEnv) : String :=
  if a.mimeTag = "" then "application/octet-stream" else a.mimeTag

/-- Embeds the byte-at-a-time fallback block (inside its own try): the loop
either raises (absorbed, yielding nothing) or accumulates `bytes`, which are
kept only when non-empty. -/
def fallbackOutcome (a : AttEnv) : Option AttachRec :=
  match a.fallback with
  | Except.ok bytes =>
    if 0 < bytes.length then some ⟨attachName a, bytes, attachContentType a⟩ else none
  | Except.error _ => none

/-- Embeds attachment processing for one index: `getAttachment` faults and
invalid/streamless attachments are skipped; otherwise the primary drain runs,
and on a stream error the fallback is tried only when `attachment.size` is
truthy (non-zero) and below 1 MiB. -/
def extractAttachment (a : AttEnv) : Option AttachRec :=
  if a.getFails then none
  else if a.filename = "" then none
  else if !a.hasStream then none
  else match a.primary with
    | some reads =>
      let chunks := drainChunks reads
      if 0 < chunks.length then some ⟨attachName a, chunks.flatten, attachContentType a⟩ else none
    | none =>
      match a.size with
      | some n => if 0 < n ∧ n < 1048576 then fallbackOutcome a else none
      | none => none

/-! ## Mailbox tree walker (extractFolder)

A folder handle scripts the reader: `children` is the sequence of
`getNextChild` outcomes (`item i`, or `fail` for a call that throws, after
which the remaining script is unreachable), `subListFails` scripts a
throwing `getSubFolders`, and `itemFails` on an item scripts a throw while
processing that item. -/

structure RawItem where
  messageClass : Option String
  subject : String
  senderEmailAddress : String
  displayTo : String
  bodyHTML : String
  body : String
  bodyRTF : String
  clientSubmitTime : Option DateV
  messageDeliveryTime : Option DateV
  transportMessageHeaders : String
  displayName : String
  attachments : List AttEnv
  itemFails : Bool

inductive ChildEvent where
  | item (i : RawItem)
  | fail

inductive Folder where
  | mk (displayName : String) (contentCount : Nat) (children : List ChildEvent)
       (hasSubfolders : Bool) (subListFails : Bool) (subs : List Folder)

def Folder.displayName : Folder → String
  | .mk n _ _ _ _ _ => n

def Folder.contentCount : Folder → Nat
  | .mk _ cc _ _ _ _ => cc

def Folder.children : Folder → List ChildEvent
  | .mk _ _ evs _ _ _ => evs

def Folder.hasSubfolders : Folder → Bool
  | .mk _ _ _ hs _ _ => hs

def Folder.subListFails : Folder → Bool
  | .mk _ _ _ _ slf _ => slf

def Folder.subs : Folder → List Folder
  | .mk _ _ _ _ _ ss => ss

/-- Embeds `emailBody = message.bodyHTML || message.body || ''` followed by
the RTF override `if (message.bodyRTF) emailBody = message.bodyRTF.toString()`
(an empty string is falsy, hence "absent"). -/
def selectBody (rtf html plain : String) : String :=
  let fallbackBody := if html = "" then (if plain = "" then "" else plain) else html
  if rtf = "" then fallbackBody else rtf

/-- Embeds the MessageData pushed for an `IPM.Note` item. -/
def mkRecord (i : RawItem) : MessageData :=
  ⟨sanitizeFilename (if i.subject = "" then "(No Subject)" else i.subject),
   i.senderEmailAddress,
   (if i.displayTo = "" then []
    else ((splitChar ';' i.displayTo.data).map (fun l => String.mk (trimList l))).filter strNonEmpty),
   selectBody i.bodyRTF i.bodyHTML i.body,
   (match i.clientSubmitTime with
    | some d => some d
    | none => i.messageDeliveryTime),
   i.messageDeliveryTime,
   i.transportMessageHeaders,
   i.attachments.filterMap extractAttachment⟩

def pushMessage : FolderData → MessageData → FolderData
  | FolderData.mk n ms cs as ss, m => FolderData.mk n (ms ++ [m]) cs as ss

def pushContact : FolderData → ContactData → FolderData
  | FolderData.mk n ms cs as ss, c => FolderData.mk n ms (cs ++ [c]) as ss

def pushAppointment : FolderData → AppointmentData → FolderData
  | FolderData.mk n ms cs as ss, a => FolderData.mk n ms cs (as ++ [a]) ss

def addSubs : FolderData → List FolderData → FolderData
  | FolderData.mk n ms cs as ss, l => FolderData.mk n ms cs as (ss ++ l)

/-- Embeds the per-item classification chain: items without an `IPM.`-prefixed
class are skipped; `IPM.Note`(`.`...) yields a message, `IPM.Contact` a
name-only contact, `IPM.Appointment` a subject/body-only appointment; any
other `IPM.` class falls through every branch and contributes nothing. -/
def classifyDispatch (i : RawItem) (acc : FolderData) : FolderData :=
  match i.messageClass with
  | none => acc
  | some mc =>
    if !strStartsWith mc "IPM." then acc
    else if mc == "IPM.Note" || strStartsWith mc "IPM.Note." then
      pushMessage acc (mkRecord i)
    else if mc == "IPM.Contact" then
      pushContact acc ⟨i.displayName, "", "", "", "", "", "", ""⟩
    else if mc == "IPM.Appointment" then
      pushAppointment acc ⟨i.subject, "", none, none, i.body⟩
    else acc

/-- Embeds the body of the per-item try: a scripted item fault throws,
otherwise the item is classified and recorded. -/
def processItemE (i : RawItem) (acc : FolderData) : Except String FolderData :=
  if i.itemFails then Except.error "item failure" else Except.ok (classifyDispatch i acc)

/-- Embeds the content-enumeration loop: a throw from processing one item is
caught at the item boundary (the accumulator so far is kept and the cursor
advances); a throw from `getNextChild` ends enumeration of this folder with
the accumulator so far (the first call's throw is caught by the enclosing
folder-content catch, later ones by the catch-and-break — same outcome). -/
def runEvents : List ChildEvent → FolderData → FolderData
  | [], acc => acc
  | ChildEvent.fail :: _, acc => acc
  | ChildEvent.item i :: rest, acc =>
    runEvents rest (match processItemE i acc with
      | Except.ok d => d
      | Except.error _ => acc)

def nonEmptyAgg (d : FolderData) : Bool :=
  !d.messages.isEmpty || !d.contacts.isEmpty || !d.appointments.isEmpty || !d.subfolders.isEmpty

/-- Embeds the freshly created folderData with its defaulted name
(`folder.displayName || 'Unnamed Folder'`). -/
def walkerBase (name : String) : FolderData :=
  FolderData.mk (if name = "" then "Unnamed Folder" else name) [] [] [] []

/-- Embeds the `if (folder.contentCount > 0)` content-enumeration phase. -/
def walkerContent (cc : Nat) (evs : List ChildEvent) (base : FolderData) : FolderData :=
  if 0 < cc then runEvents evs base else base

/-- Embeds the per-subfolder step: the catch around the recursive call
(a failed recursion contributes nothing) and the non-emptiness guard before
pushing the aggregate. -/
def keepNonEmpty (r : Except String FolderData) : List FolderData :=
  match r with
  | Except.ok s => if nonEmptyAgg s then [s] else []
  | Except.error _ => []

mutual
/-- Embeds `extractFolder`: name defaulting, content enumeration when
`contentCount > 0`, then — when the folder reports subfolders — the subfolder
descent, skipped entirely if `getSubFolders` throws (caught); each recursive
result is appended only when non-empty, and a throw from one subfolder's
recursion is caught, omitting that subfolder while siblings continue. -/
def extractFolderE : Folder → Except String FolderData
  | Folder.mk name cc evs hs slf subs =>
    Except.ok
      (if hs then
        if slf then walkerContent cc evs (walkerBase name)
        else addSubs (walkerContent cc evs (walkerBase name)) (extractSubs subs)
      else walkerContent cc evs (walkerBase name))
def extractSubs : List Folder → List FolderData
  | [] => []
  | c :: cs => keepNonEmpty (extractFolderE c) ++ extractSubs cs
end

mutual
def subAggs : FolderData → List FolderData
  | FolderData.mk _ _ _ _ ss => ss ++ subAggsList ss
def subAggsList : List FolderData → List FolderData
  | [] => []
  | d :: ds => subAggs d ++ subAggsList ds
end

mutual
def treeMessages : FolderData → List MessageData
  | FolderData.mk _ ms _ _ ss => ms ++ treeMessagesList ss
def treeMessagesList : List FolderData → List MessageData
  | [] => []
  | d :: ds => treeMessages d ++ treeMessagesList ds
end

/-! ## Exporter (exportToFiles)

The filesystem is an environment of per-path failure switches; `mkdir` and
`writeFile` throw exactly on flagged paths.  The written tree is returned as
a list of (path, content) pairs; an uncaught throw is an `Except.error`,
which at the top level models `exportToFiles` rejecting for that mailbox
file (its outer catch logs and rethrows). -/

structure FsEnv where
  mkdirFail : String → Bool
  writeFail : String → Bool
  emlSeed : String
  now : DateV

def pjoin (a b : String) : String := a ++ "/" ++ b

def mkdirE (env : FsEnv) (p : String) : Except String Unit :=
  if env.mkdirFail p then Except.error ("mkdir " ++ p) else Except.ok ()

def writeFileE (env : FsEnv) (p : String) : Except String Unit :=
  if env.writeFail p then Except.error ("write " ++ p) else Except.ok ()

inductive FileContent where
  | text (s : String)
  | bytes (bs : List Nat)

/-- Embeds the attachment-saving loop: each write is wrapped in its own
try, so a failed attachment write is skipped. -/
def exportAttachments (env : FsEnv) (attachmentsPath : String) (l : List AttachRec) :
    List (String × FileContent) :=
  l.foldl (fun acc a =>
    let ap := pjoin attachmentsPath (sanitizeFilename a.filename)
    match writeFileE env ap with
    | Except.ok _ => acc ++ [(ap, FileContent.bytes a.data)]
    | Except.error _ => acc) []

/-- Embeds the body of the per-message try: write the EML file, then (when
attachments exist) create the attachments directory and save each one. -/
def exportMessageE (env : FsEnv) (emailsPath : String) (m : MessageData) :
    Except String (List (String × FileContent)) :=
  let emailPath := pjoin emailsPath (sanitizeFilename (formatDate m.sentDate ++ "_" ++ m.subject ++ ".eml"))
  match writeFileE env emailPath with
  | Except.error e => Except.error e
  | Except.ok _ =>
    let written := [(emailPath, FileContent.text (createEMLContent env.emlSeed env.now m))]
    if m.attachments.length = 0 then Except.ok written
    else
      let attachmentsPath := pjoin (pjoin emailsPath "Attachments") (sanitizeFilename m.subject)
      match mkdirE env attachmentsPath with
      | Except.error e => Except.error e
      | Except.ok _ => Except.ok (written ++ exportAttachments env attachmentsPath m.attachments)

/-- Embeds the message loop: each message is processed inside a try whose
catch logs and continues, so a failing message is skipped. -/
def exportMessages (env : FsEnv) (emailsPath : String) (l : List MessageData) :
    List (String × FileContent) :=
  l.foldl (fun acc m =>
    match exportMessageE env emailsPath m with
    | Except.ok ws => acc ++ ws
    | Except.error _ => acc) []

/-- Embeds the contact loop, which has no per-item try: a failing write
throws out of `exportToFiles`. -/
def exportContactsE (env : FsEnv) (contactsPath : String) :
    List ContactData → Except String (List (String × FileContent))
  | [] => Except.ok []
  | c :: rest =>
    let p := pjoin contactsPath (sanitizeFilename (c.fullName ++ ".vcf"))
    match writeFileE env p with
    | Except.error e => Except.error e
    | Except.ok _ =>
      match exportContactsE env contactsPath rest with
      | Except.error e => Except.error e
      | Except.ok ws => Except.ok ((p, FileContent.text (createVCardContent c)) :: ws)

/-- Embeds the appointment loop, which likewise has no per-item try. -/
def exportAppointmentsE (env : FsEnv) (calendarPath : String) :
    List AppointmentData → Except String (List (String × FileContent))
  | [] => Except.ok []
  | a :: rest =>
    let p := pjoin calendarPath (sanitizeFilename (formatDate a.startTime ++ "_" ++ a.subject ++ ".ics"))
    match writeFileE env p with
    | Except.error e => Except.error e
    | Except.ok _ =>
      match exportAppointmentsE env calendarPath rest with
      | Except.error e => Except.error e
      | Except.ok ws => Except.ok ((p, FileContent.text (createICalContent a)) :: ws)

mutual
/-- Embeds `exportToFiles`: folder directory, then Emails / Contacts /
Calendar sections (each directory created only when its list is non-empty),
then recursion into subfolders; uncaught throws propagate (the outer catch
rethrows). -/
def exportToFilesE (env : FsEnv) : FolderData → String → Except String (List (String × FileContent))
  | FolderData.mk name msgs contacts appts subs, basePath =>
    let folderPath := pjoin basePath (sanitizeFilename name)
    match mkdirE env folderPath with
    | Except.error e => Except.error e
    | Except.ok _ =>
      match (if msgs.length = 0 then Except.ok []
        else match mkdirE env (pjoin folderPath "Emails") with
          | Except.error e => Except.error e
          | Except.ok _ => Except.ok (exportMessages env (pjoin folderPath "Emails") msgs)) with
      | Except.error e => Except.error e
      | Except.ok w1 =>
        match (if contacts.length = 0 then Except.ok []
          else match mkdirE env (pjoin folderPath "Contacts") with
            | Except.error e => Except.error e
            | Except.ok _ => exportContactsE env (pjoin folderPath "Contacts") contacts) with
        | Except.error e => Except.error e
        | Except.ok w2 =>
          match (if appts.length = 0 then Except.ok []
            else match mkdirE env (pjoin folderPath "Calendar") with
              | Except.error e => Except.error e
              | Except.ok _ => exportAppointmentsE env (pjoin folderPath "Calendar") appts) with
          | Except.error e => Except.error e
          | Except.ok w3 =>
            match exportSubsE env subs folderPath with
            | Except.error e => Except.error e
            | Except.ok w4 => Except.ok (w1 ++ w2 ++ w3 ++ w4)
def exportSubsE (env : FsEnv) : List FolderData → String → Except String (List (String × FileContent))
  | [], _ => Except.ok []
  | d :: ds, folderPath =>
    match exportToFilesE env d folderPath with
    | Except.error e => Except.error e
    | Except.ok ws =>
      match exportSubsE env ds folderPath with
      | Except.error e => Except.error e
      | Except.ok ws2 => Except.ok (ws ++ ws2)
end

mutual
/-- Collects the file paths whose writes are not protected by a per-item
try in `exportToFiles`: every contact and appointment file of the tree. -/
def fatalPaths : FolderData → String → List String
  | FolderData.mk name _ contacts appts subs, basePath =>
    let folderPath := pjoin basePath (sanitizeFilename name)
    contacts.map (fun c => pjoin (pjoin folderPath "Contacts") (sanitizeFilename (c.fullName ++ ".vcf")))
    ++ appts.map (fun a => pjoin (pjoin folderPath "Calendar")
         (sanitizeFilename (formatDate a.startTime ++ "_" ++ a.subject ++ ".ics")))
    ++ fatalPathsList subs folderPath
def fatalPathsList : List FolderData → String → List String
  | [], _ => []
  | d :: ds, fp => fatalPaths d fp ++ fatalPathsList ds fp
end

/-! ## Reference definition written from the spec's wording (for C9) -/

/-- Spec wording of the body preference order: rich text if present, else
HTML body if present, else plain text, else the empty string. -/
def specBodyPreference (rtf html plain : String) : String :=
  if rtf ≠ "" then rtf
  else if html ≠ "" then html
  else if plain ≠ "" then plain
  else ""

/-! ## Concrete inputs used by witnesses and counterexamples -/

def noteItem : RawItem := ⟨some "IPM.Note", "s", "", "", "", "b", "", none, none, "", "", [], false⟩

def badItem : RawItem := ⟨none, "", "", "", "", "", "", none, none, "", "", [], true⟩

def accW : FolderData := FolderData.mk "w" [] [] [] []

def subEmptyF : Folder := Folder.mk "E" 0 [] false false []

def subFullF : Folder := Folder.mk "F" 1 [ChildEvent.item noteItem] false false []

def rootF : Folder := Folder.mk "R" 0 [] true false [subEmptyF, subFullF]

def rootAgg : FolderData := FolderData.mk "R" [] [] [] [FolderData.mk "F" [mkRecord noteItem] [] [] []]

def attC7 : AttEnv := ⟨false, "f", "", true, none, some 0, Except.ok [5], ""⟩

def attW : AttEnv := ⟨false, "f", "", true, none, some 10, Except.ok [7], ""⟩

def msgC4 : MessageData := ⟨"", "", [], "b", none, none, "", []⟩

def msgC5 : MessageData := ⟨"s", "x", [], "b", none, none, "", []⟩

def msgC5w : MessageData := ⟨"s", "x", [], "b", some ⟨"U", "I"⟩, none, "", []⟩

def contactC5 : ContactData := ⟨"n", "", "", "", "", "", "", ""⟩

def apptC5 : AppointmentData := ⟨"s", "", none, none, ""⟩

def contactC3 : ContactData := ⟨"c", "", "", "", "", "", "", ""⟩

def dataC3 : FolderData := FolderData.mk "F" [] [contactC3] [] []

def contactPathC3 : String := "out/F/Contacts/c.vcf"

def envC3 : FsEnv := ⟨fun _ => false, fun p => p == contactPathC3, "s", ⟨"U", "I"⟩⟩

def msgC3 : MessageData := ⟨"m", "", [], "b", none, none, "", []⟩

def dataC3w : FolderData := FolderData.mk "F" [msgC3] [contactC3] [] []

def emailPathC3 : String := "out/F/Emails/_m.eml"

def envC3w : FsEnv := ⟨fun _ => false, fun p => p == emailPathC3, "s", ⟨"U", "I"⟩⟩

def envAll : FsEnv := ⟨fun _ => false, fun _ => false, "s", ⟨"U", "I"⟩⟩

def longItem : RawItem :=
  ⟨some "IPM.Note", String.mk (List.replicate 200 'a'), "", "", "", "b", "", none, none, "", "", [], false⟩

def longFolder : Folder := Folder.mk "L" 1 [ChildEvent.item longItem] false false []

def longAgg : FolderData := FolderData.mk "L" [mkRecord longItem] [] [] []

def longPath : String :=
  pjoin "E" (sanitizeFilename
    (formatDate (mkRecord longItem).sentDate ++ "_" ++ (mkRecord longItem).subject ++ ".eml"))

/-! ## Helper lemmas -/

theorem sanitizeFilename_data (s : String) :
    (sanitizeFilename s).data
      = (s.data.map (fun c => if isForbidden c then '_' else c)).take 180 := rfl

theorem sanitizeFilename_len (s : String) : (sanitizeFilename s).length ≤ 180 := by
  have h : (sanitizeFilename s).length
      = ((s.data.map (fun c => if isForbidden c then '_' else c)).take 180).length := rfl
  rw [h, List.length_take]
  exact min_le_left _ _

theorem sanitizeFilename_clean (s : String) :
    ∀ c ∈ (sanitizeFilename s).data, isForbidden c = false := by
  intro c hc
  rw [sanitizeFilename_data] at hc
  have hc2 : c ∈ s.data.map (fun c => if isForbidden c then '_' else c) :=
    List.take_subset _ _ hc
  rw [List.mem_map] at hc2
  obtain ⟨x, -, hx⟩ := hc2
  by_cases h : isForbidden x = true
  · rw [if_pos h] at hx
    rw [← hx]
    rfl
  · rw [Bool.not_eq_true] at h
    rw [if_neg (by simp [h])] at hx
    rw [← hx]
    exact h

theorem string_eq_empty_iff_data (s : String) : s = "" ↔ s.data = [] :=
  ⟨fun h => by rw [h], fun h => String.ext h⟩

theorem sanitizeFilename_ne_empty (s : String) (h : s ≠ "") : sanitizeFilename s ≠ "" := by
  intro hc
  apply h
  rw [string_eq_empty_iff_data] at hc ⊢
  rw [sanitizeFilename_data] at hc
  have h2 := congrArg List.length hc
  rw [List.length_take, List.length_map] at h2
  simp only [List.length_nil] at h2
  rcases Nat.min_eq_zero_iff.mp h2 with h3 | h3
  · omega
  · exact List.eq_nil_of_length_eq_zero h3

/-! ## C8 -/

/-- C8: for every input string, `sanitizeFilename` returns a string with
none of the characters `< > : " / \ | ? *` (each replaced by underscore)
and length at most 180. -/
theorem sanitizeFilename_safe (s : String) :
    (∀ c ∈ (sanitizeFilename s).data, isForbidden c = false) ∧
    (sanitizeFilename s).length ≤ 180 :=
  ⟨sanitizeFilename_clean s, sanitizeFilename_len s⟩

/-! ## C9 -/

/-- C9: the body stored in a MessageRecord follows the preference order
rich text (RTF, treated as HTML) if present, else HTML body, else plain
text, else the empty string. -/
theorem mkRecord_body_preference (i : RawItem) :
    (mkRecord i).body = specBodyPreference i.bodyRTF i.bodyHTML i.body := by
  show selectBody i.bodyRTF i.bodyHTML i.body = _
  unfold selectBody specBodyPreference
  split_ifs <;> simp_all

/-! ## C6 -/

/-- C6: when a stream delivers its bytes as a run of full 8176-byte chunks
followed by one short chunk (the read at which the loop stops), the primary
drain returns exactly those bytes concatenated in order — nothing lost,
nothing duplicated. -/
theorem drainChunks_exact (reads : List (List Nat)) (lastChunk : List Nat)
    (hfull : ∀ c ∈ reads, c.length = 8176) (hlast : lastChunk.length < 8176) :
    (drainChunks (reads ++ [lastChunk])).flatten = (reads ++ [lastChunk]).flatten := by
  induction reads with
  | nil =>
    have hne : ¬ lastChunk.length = 8176 := by omega
    by_cases hp : 0 < lastChunk.length
    · simp [drainChunks, hne, hp]
    · have h0 : lastChunk = [] := by
        cases lastChunk with
        | nil => rfl
        | cons x xs => simp at hp
      simp [drainChunks, h0]
  | cons c rest ih =>
    have hc : c.length = 8176 := hfull c (List.mem_cons_self c rest)
    have ih2 := ih (fun x hx => hfull x (List.mem_cons_of_mem c hx))
    simp [drainChunks, hc, ih2]

theorem drainChunks_exact_witness :
    (drainChunks ([] ++ [[1, 2, 3]])).flatten = ([] ++ [[1, 2, 3]]).flatten :=
  drainChunks_exact [] [1, 2, 3] (by simp) (by simp)

/-! ## C7 -/

theorem drainChunks_mem_pos (reads : List (List Nat)) :
    ∀ c ∈ drainChunks reads, 0 < c.length := by
  induction reads with
  | nil =>
    intro c hc
    simp [drainChunks] at hc
  | cons x rest ih =>
    intro c hc
    unfold drainChunks at hc
    by_cases hx : x.length = 8176
    · rw [if_pos hx] at hc
      rcases List.mem_cons.mp hc with h | h
      · rw [h, hx]
        omega
      · exact ih c h
    · rw [if_neg hx] at hc
      by_cases hp : 0 < x.length
      · rw [if_pos hp] at hc
        rcases List.mem_cons.mp hc with h | h
        · rw [h]
          exact hp
        · simp at h
      · rw [if_neg hp] at hc
        simp at hc

theorem attachContentType_ne_empty (a : AttEnv) : attachContentType a ≠ "" := by
  unfold attachContentType
  by_cases h : a.mimeTag = ""
  · rw [if_pos h]
    decide
  · rw [if_neg h]
    exact h

/-- C7 (amended): after a primary stream error, the byte-at-a-time fallback
runs exactly when the declared size is a known, non-zero number below 1 MiB
(a declared size of 0 is falsy and skips the fallback); any attachment that
is produced carries a non-empty byte sequence and a content type defaulting
to application/octet-stream; and a message item is recorded regardless of
how its attachments fared. -/
theorem extractAttachment_contract :
    (∀ a : AttEnv, a.getFails = false → a.filename ≠ "" → a.hasStream = true → a.primary = none →
      ((∃ n, a.size = some n ∧ 0 < n ∧ n < 1048576) → extractAttachment a = fallbackOutcome a) ∧
      ((∀ n, a.size = some n → n = 0 ∨ 1048576 ≤ n) → extractAttachment a = none)) ∧
    (∀ (a : AttEnv) (r : AttachRec), extractAttachment a = some r →
      0 < r.data.length ∧ r.contentType = attachContentType a ∧ r.contentType ≠ "") ∧
    (∀ (i : RawItem) (acc : FolderData), i.itemFails = false → i.messageClass = some "IPM.Note" →
      processItemE i acc = Except.ok (pushMessage acc (mkRecord i))) := by
  refine ⟨?_, ?_, ?_⟩
  · intro a hg hf hs hp
    constructor
    · rintro ⟨n, hn, h0, h1⟩
      simp [extractAttachment, hg, hf, hs, hp, hn, h0, h1]
    · intro hbad
      cases hsize : a.size with
      | none => simp [extractAttachment, hg, hf, hs, hp, hsize]
      | some n =>
        have := hbad n hsize
        have hno : ¬ (0 < n ∧ n < 1048576) := by omega
        simp [extractAttachment, hg, hf, hs, hp, hsize, hno]
  · intro a r h
    unfold extractAttachment at h
    by_cases hg : a.getFails
    · simp [hg] at h
    simp only [hg, if_false, Bool.false_eq_true] at h
    by_cases hf : a.filename = ""
    · simp [hf] at h
    rw [if_neg hf] at h
    by_cases hs : a.hasStream
    case neg => simp [hs] at h
    simp only [hs, Bool.not_true, Bool.false_eq_true, if_false] at h
    cases hp : a.primary with
    | some reads =>
      rw [hp] at h
      by_cases hc : 0 < (drainChunks reads).length
      · simp only [hc, if_true] at h
        have hr : r = ⟨attachName a, (drainChunks reads).flatten, attachContentType a⟩ :=
          ((Option.some.injEq _ _).mp h).symm
        subst hr
        refine ⟨?_, rfl, attachContentType_ne_empty a⟩
        obtain ⟨x, xs, hx⟩ : ∃ x xs, drainChunks reads = x :: xs := by
          cases hd : drainChunks reads with
          | nil => rw [hd] at hc; simp at hc
          | cons x xs => exact ⟨x, xs, rfl⟩
        have hxp : 0 < x.length :=
          drainChunks_mem_pos reads x (by rw [hx]; exact List.mem_cons_self x xs)
        simp only [hx, List.flatten_cons, List.length_append]
        omega
      · simp only [hc, if_false] at h
        simp at h
    | none =>
      rw [hp] at h
      cases hsize : a.size with
      | none => rw [hsize] at h; simp at h
      | some n =>
        rw [hsize] at h
        by_cases hn : 0 < n ∧ n < 1048576
        · simp only [hn, if_true] at h
          unfold fallbackOutcome at h
          cases hfb : a.fallback with
          | ok bytes =>
            rw [hfb] at h
            by_cases hb : 0 < bytes.length
            · simp only [hb, if_true] at h
              have hr : r = ⟨attachName a, bytes, attachContentType a⟩ :=
                ((Option.some.injEq _ _).mp h).symm
              subst hr
              exact ⟨hb, rfl, attachContentType_ne_empty a⟩
            · simp only [hb, if_false] at h
              simp at h
          | error e => rw [hfb] at h; simp at h
        · simp only [hn, if_false] at h
          simp at h
  · intro i acc h0 h1
    unfold processItemE
    rw [h0]
    simp only [Bool.false_eq_true, if_false]
    unfold classifyDispatch
    rw [h1]
    simp [strStartsWith]

theorem extractAttachment_contract_witness :
    extractAttachment attW = fallbackOutcome attW :=
  (extractAttachment_contract.1 attW rfl (by decide) rfl rfl).1 ⟨10, rfl, by decide, by decide⟩

/-- C7 counterexample: an attachment whose declared size is the known number
0 (below 1 MiB) and whose fallback read would yield a byte: the claim's
"known and below 1 MiB" condition holds and the fallback would succeed, yet
the code skips the fallback (0 is falsy) and drops the attachment. -/
theorem extractAttachment_size_zero_skips_fallback :
    attC7.size = some 0 ∧ (0 : Nat) < 1048576 ∧ attC7.fallback = Except.ok [5] ∧
    fallbackOutcome attC7 = some ⟨"f", [5], "application/octet-stream"⟩ ∧
    extractAttachment attC7 = none :=
  ⟨rfl, by decide, rfl, by decide, by decide⟩

/-! ## C4 -/

theorem strData_append (a b : String) : (a ++ b).data = a.data ++ b.data := by
  cases a
  cases b
  rfl

theorem strNonEmpty_append (a b : String) (h : a.data ≠ []) : strNonEmpty (a ++ b) = true := by
  unfold strNonEmpty
  rw [strData_append]
  cases hl : a.data with
  | nil => exact absurd hl h
  | cons x xs => simp

theorem strNonEmpty_of_ne (s : String) (h : s ≠ "") : strNonEmpty s = true := by
  unfold strNonEmpty
  cases hl : s.data with
  | nil => exact absurd ((string_eq_empty_iff_data s).mpr hl) h
  | cons x xs => simp

theorem filter_strNonEmpty_cons_pos (x : String) (l : List String) (h : strNonEmpty x = true) :
    List.filter strNonEmpty (x :: l) = x :: List.filter strNonEmpty l := by
  simp [List.filter_cons, h]

theorem emlContentTypeLine_nonempty (b : String) (m : MessageData) :
    strNonEmpty (emlContentTypeLine b m) = true := by
  unfold emlContentTypeLine
  split_ifs
  · apply strNonEmpty_append
    rw [strData_append]
    simp
  · decide
  · decide

theorem emlHeaderLines_filter_eq (seed : String) (now : DateV) (m : MessageData) :
    emlHeaderLines seed now m =
      ["From: " ++ m.sender,
       "To: " ++ String.intercalate ", " m.recipients,
       "Subject: " ++ m.subject,
       "Date: " ++ (chooseDate m now).utc,
       "MIME-Version: 1.0",
       emlContentTypeLine ("boundary_" ++ seed) m,
       "X-Mailer: pst-extractor"]
      ++ (if m.headers = "" then [] else [m.headers]) := by
  unfold emlHeaderLines emlHeaderEntriesRaw
  rw [filter_strNonEmpty_cons_pos _ _ (strNonEmpty_append _ _ (by decide))]
  rw [filter_strNonEmpty_cons_pos _ _ (strNonEmpty_append _ _ (by decide))]
  rw [filter_strNonEmpty_cons_pos _ _ (strNonEmpty_append _ _ (by decide))]
  rw [filter_strNonEmpty_cons_pos _ _ (strNonEmpty_append _ _ (by decide))]
  rw [filter_strNonEmpty_cons_pos _ _ (by decide)]
  rw [filter_strNonEmpty_cons_pos _ _ (emlContentTypeLine_nonempty _ m)]
  rw [filter_strNonEmpty_cons_pos _ _ (by decide)]
  by_cases hm : m.headers = ""
  · rw [hm]
    simp [List.filter_cons, show strNonEmpty "" = false from rfl]
  · rw [if_neg hm]
    simp [List.filter_cons, strNonEmpty_of_ne m.headers hm]

/-- C4 (amended): `.filter(Boolean)` drops only the raw transport-headers
entry (the one entry that can be the empty string); the From, To, Subject,
Date, MIME-Version, Content-Type and X-Mailer lines are always emitted, so
an empty sender, recipient list or subject yields a header line with an
empty value rather than being omitted. -/
theorem emlHeaderLines_resolved (seed : String) (now : DateV) (m : MessageData) :
    emlHeaderLines seed now m =
      ["From: " ++ m.sender,
       "To: " ++ String.intercalate ", " m.recipients,
       "Subject: " ++ m.subject,
       "Date: " ++ (chooseDate m now).utc,
       "MIME-Version: 1.0",
       emlContentTypeLine ("boundary_" ++ seed) m,
       "X-Mailer: pst-extractor"]
      ++ (if m.headers = "" then [] else [m.headers]) :=
  emlHeaderLines_filter_eq seed now m

/-- C4 counterexample: a message whose sender, recipients and subject are
all empty produces `From: `, `To: ` and `Subject: ` header lines with empty
values — the serialized output shown in full. -/
theorem eml_empty_header_lines :
    msgC4.sender = "" ∧ msgC4.subject = "" ∧ msgC4.recipients = [] ∧
    createEMLContent "r" ⟨"D", "D"⟩ msgC4 =
      "From: \r\nTo: \r\nSubject: \r\nDate: D\r\nMIME-Version: 1.0\r\nContent-Type: text/plain; charset=utf-8\r\nX-Mailer: pst-extractor\r\n\r\nb" :=
  ⟨rfl, rfl, rfl, by decide⟩

/-! ## C5 -/

/-- C5 (amended): the serializers are pure given the run environment — the
boundary seed and the clock; vCard and iCal take no environment at all, and
the EML output is environment-independent whenever the message has no
attachments and carries at least one of its own timestamps.  (An undated
message's Date header comes from the current clock, a second source of
run-to-run variation beside the boundary token.) -/
theorem serializers_deterministic (m : MessageData) (c : ContactData) (a : AppointmentData)
    (s1 s2 : String) (n1 n2 : DateV) :
    (s1 = s2 → n1 = n2 → createEMLContent s1 n1 m = createEMLContent s2 n2 m) ∧
    createVCardContent c = createVCardContent c ∧
    createICalContent a = createICalContent a ∧
    (m.attachments = [] → m.sentDate.isSome = true ∨ m.receivedDate.isSome = true →
      createEMLContent s1 n1 m = createEMLContent s2 n2 m) := by
  refine ⟨?_, rfl, rfl, ?_⟩
  · rintro rfl rfl
    rfl
  · intro hatt hdate
    have hlen : m.attachments.length = 0 := by rw [hatt]; rfl
    have hcd : chooseDate m n1 = chooseDate m n2 := by
      unfold chooseDate
      cases hs : m.sentDate with
      | some d => rfl
      | none =>
        cases hr : m.receivedDate with
        | some d => rfl
        | none =>
          rcases hdate with h | h
          · rw [hs] at h
            simp at h
          · rw [hr] at h
            simp at h
    have hct : emlContentTypeLine ("boundary_" ++ s1) m = emlContentTypeLine ("boundary_" ++ s2) m := by
      unfold emlContentTypeLine
      rw [hlen]
      simp
    have h1 : emlHeaderLines s1 n1 m = emlHeaderLines s2 n2 m := by
      unfold emlHeaderLines emlHeaderEntriesRaw
      rw [hcd, hct]
    simp [createEMLContent, hlen, h1]

theorem serializers_deterministic_witness :
    createEMLContent "x" ⟨"U", "I"⟩ msgC5w = createEMLContent "y" ⟨"V", "J"⟩ msgC5w :=
  (serializers_deterministic msgC5w contactC5 apptC5 "x" "y" ⟨"U", "I"⟩ ⟨"V", "J"⟩).2.2.2
    rfl (Or.inl rfl)

/-- C5 counterexample: a message with no attachments (so the boundary token
cannot matter) and no timestamps serializes differently under two clocks —
the outputs differ beyond the randomized boundary token. -/
theorem eml_clock_dependent :
    msgC5.attachments = [] ∧
    createEMLContent "s" ⟨"A", "A"⟩ msgC5 ≠ createEMLContent "s" ⟨"B", "B"⟩ msgC5 :=
  ⟨rfl, by decide⟩

/-! ## C2 -/

theorem extractFolderE_ok (f : Folder) : ∃ d, extractFolderE f = Except.ok d := by
  cases f with
  | mk name cc evs hs slf subs => exact ⟨_, rfl⟩

/-- C2: the walker always completes with an aggregate — no folder script
makes it return an error — and the absorption granularity is as described:
a failing item is skipped with the cursor advanced past it, and a cursor
fault ends enumeration of that folder at that point (events beyond it are
irrelevant), without affecting anything outside the folder. -/
theorem extractFolder_never_raises :
    (∀ f : Folder, ∃ d, extractFolderE f = Except.ok d) ∧
    (∀ (pre : List ChildEvent) (bad : RawItem) (post : List ChildEvent) (acc : FolderData),
      bad.itemFails = true →
      runEvents (pre ++ ChildEvent.item bad :: post) acc = runEvents (pre ++ post) acc) ∧
    (∀ (pre post : List ChildEvent) (acc : FolderData),
      runEvents (pre ++ ChildEvent.fail :: post) acc = runEvents (pre ++ [ChildEvent.fail]) acc) := by
  refine ⟨extractFolderE_ok, ?_, ?_⟩
  · intro pre
    induction pre with
    | nil =>
      intro bad post acc hb
      simp [runEvents, processItemE, hb]
    | cons e rest ih =>
      intro bad post acc hb
      cases e with
      | item i =>
        simp only [List.cons_append, runEvents]
        exact ih bad post _ hb
      | fail =>
        simp [runEvents]
  · intro pre
    induction pre with
    | nil =>
      intro post acc
      simp [runEvents]
    | cons e rest ih =>
      intro post acc
      cases e with
      | item i =>
        simp only [List.cons_append, runEvents]
        exact ih post _
      | fail =>
        simp [runEvents]

theorem extractFolder_never_raises_witness :
    runEvents ([] ++ ChildEvent.item badItem :: []) accW = runEvents ([] ++ []) accW :=
  extractFolder_never_raises.2.1 [] badItem [] accW rfl

/-! ## C1 -/

theorem mem_keepNonEmpty (r : Except String FolderData) (s : FolderData) :
    s ∈ keepNonEmpty r ↔ r = Except.ok s ∧ nonEmptyAgg s = true := by
  cases r with
  | ok s' =>
    by_cases hn : nonEmptyAgg s' = true
    · simp only [keepNonEmpty, hn, if_true, List.mem_singleton, Except.ok.injEq]
      constructor
      · intro h
        subst h
        exact ⟨rfl, hn⟩
      · rintro ⟨rfl, -⟩
        rfl
    · simp only [keepNonEmpty, hn, if_false, List.not_mem_nil, false_iff, not_and,
        Except.ok.injEq, Bool.false_eq_true]
      rintro rfl
      exact fun h2 => hn h2
  | error e =>
    simp [keepNonEmpty]

theorem mem_extractSubs (s : FolderData) (cs : List Folder) :
    s ∈ extractSubs cs ↔ ∃ c ∈ cs, extractFolderE c = Except.ok s ∧ nonEmptyAgg s = true := by
  induction cs with
  | nil => simp [extractSubs]
  | cons c rest ih =>
    simp only [extractSubs]
    rw [List.mem_append, mem_keepNonEmpty, ih]
    constructor
    · rintro (⟨h1, h2⟩ | ⟨c', hc', h⟩)
      · exact ⟨c, List.mem_cons_self c rest, h1, h2⟩
      · exact ⟨c', List.mem_cons_of_mem c hc', h⟩
    · rintro ⟨c', hc', h⟩
      rcases List.mem_cons.mp hc' with rfl | hc2
      · exact Or.inl h
      · exact Or.inr ⟨c', hc2, h⟩

theorem pushMessage_subfolders (d : FolderData) (m : MessageData) :
    (pushMessage d m).subfolders = d.subfolders := by
  cases d
  rfl

theorem pushContact_subfolders (d : FolderData) (c : ContactData) :
    (pushContact d c).subfolders = d.subfolders := by
  cases d
  rfl

theorem pushAppointment_subfolders (d : FolderData) (a : AppointmentData) :
    (pushAppointment d a).subfolders = d.subfolders := by
  cases d
  rfl

theorem classifyDispatch_subfolders (i : RawItem) (acc : FolderData) :
    (classifyDispatch i acc).subfolders = acc.subfolders := by
  unfold classifyDispatch
  split
  · rfl
  split_ifs <;>
    simp [pushMessage_subfolders, pushContact_subfolders, pushAppointment_subfolders]

theorem runEvents_subfolders (evs : List ChildEvent) :
    ∀ acc, (runEvents evs acc).subfolders = acc.subfolders := by
  induction evs with
  | nil =>
    intro acc
    rfl
  | cons e rest ih =>
    intro acc
    cases e with
    | fail => rfl
    | item i =>
      show (runEvents rest _).subfolders = _
      rw [ih]
      unfold processItemE
      by_cases hf : i.itemFails
      · simp [hf]
      · simp [hf, classifyDispatch_subfolders]

theorem addSubs_subfolders (d : FolderData) (l : List FolderData) :
    (addSubs d l).subfolders = d.subfolders ++ l := by
  cases d
  rfl

theorem walkerContent_subfolders (cc : Nat) (evs : List ChildEvent) (name : String) :
    (walkerContent cc evs (walkerBase name)).subfolders = [] := by
  unfold walkerContent
  by_cases hcc : 0 < cc
  · rw [if_pos hcc, runEvents_subfolders]
    rfl
  · rw [if_neg hcc]
    rfl

theorem extract_subfolders (name : String) (cc : Nat) (evs : List ChildEvent)
    (hs slf : Bool) (subs : List Folder) (d : FolderData)
    (h : extractFolderE (Folder.mk name cc evs hs slf subs) = Except.ok d) :
    d.subfolders = if hs = true ∧ slf = false then extractSubs subs else [] := by
  have hd : (if hs then
      (if slf then walkerContent cc evs (walkerBase name)
       else addSubs (walkerContent cc evs (walkerBase name)) (extractSubs subs))
      else walkerContent cc evs (walkerBase name)) = d := by
    injection h
  cases hs with
  | true =>
    cases slf with
    | true =>
      have hd2 : walkerContent cc evs (walkerBase name) = d := hd
      rw [← hd2, walkerContent_subfolders]
      simp
    | false =>
      have hd2 : addSubs (walkerContent cc evs (walkerBase name)) (extractSubs subs) = d := hd
      rw [← hd2, addSubs_subfolders, walkerContent_subfolders]
      simp
  | false =>
    have hd2 : walkerContent cc evs (walkerBase name) = d := hd
    rw [← hd2, walkerContent_subfolders]
    simp

theorem mem_subAggsList (a : FolderData) (ds : List FolderData) :
    a ∈ subAggsList ds ↔ ∃ s ∈ ds, a ∈ subAggs s := by
  induction ds with
  | nil => simp [subAggsList]
  | cons d rest ih =>
    simp only [subAggsList, List.mem_append, ih, List.mem_cons]
    constructor
    · rintro (h | ⟨s, h1, h2⟩)
      · exact ⟨d, Or.inl rfl, h⟩
      · exact ⟨s, Or.inr h1, h2⟩
    · rintro ⟨s, rfl | h1, h2⟩
      · exact Or.inl h2
      · exact Or.inr ⟨s, h1, h2⟩

theorem subAggs_nonEmpty_aux : ∀ (f : Folder) (d : FolderData),
    extractFolderE f = Except.ok d → ∀ a ∈ subAggs d, nonEmptyAgg a = true := by
  intro f
  induction f using Folder.rec
    (motive_2 := fun l => ∀ c ∈ l, ∀ s, extractFolderE c = Except.ok s →
      ∀ a ∈ subAggs s, nonEmptyAgg a = true) with
  | mk name cc evs hs slf subs ih =>
    intro d h a ha
    have hd := extract_subfolders name cc evs hs slf subs d h
    have hsub : subAggs d = d.subfolders ++ subAggsList d.subfolders := by
      cases d
      rfl
    rw [hsub] at ha
    rcases List.mem_append.mp ha with h1 | h1
    · rw [hd] at h1
      by_cases hc : hs = true ∧ slf = false
      · rw [if_pos hc] at h1
        obtain ⟨c, -, -, hne⟩ := (mem_extractSubs a subs).mp h1
        exact hne
      · rw [if_neg hc] at h1
        simp at h1
    · obtain ⟨s, hs1, hs2⟩ := (mem_subAggsList a d.subfolders).mp h1
      rw [hd] at hs1
      by_cases hc : hs = true ∧ slf = false
      · rw [if_pos hc] at hs1
        obtain ⟨c, hcmem, hok, -⟩ := (mem_extractSubs s subs).mp hs1
        exact ih c hcmem s hok a hs2
      · rw [if_neg hc] at hs1
        simp at hs1
  | nil =>
    rename_i c hc s hok a ha
    simp at hc
  | cons c0 cs0 ih1 ih2 =>
    rename_i c hc s hok a ha
    rcases List.mem_cons.mp hc with rfl | h2
    · exact ih1 s hok a ha
    · exact ih2 c h2 s hok a ha

/-- C1: a recursed-into subfolder aggregate is appended to its parent's
subfolders exactly when it has at least one message, contact, appointment
or subfolder: every aggregate attached anywhere below an extracted folder
is non-empty (empty branches are pruned), and conversely every non-empty
aggregate extracted from a listed child is attached. -/
theorem subfolder_pruning (f : Folder) (d : FolderData)
    (h : extractFolderE f = Except.ok d) :
    (∀ a ∈ subAggs d, nonEmptyAgg a = true) ∧
    (f.hasSubfolders = true → f.subListFails = false →
      ∀ c ∈ f.subs, ∀ s, extractFolderE c = Except.ok s → nonEmptyAgg s = true →
        s ∈ d.subfolders) := by
  constructor
  · exact subAggs_nonEmpty_aux f d h
  · intro hhs hslf c hc s hok hne
    cases f with
    | mk name cc evs hs slf subs =>
      have hd := extract_subfolders name cc evs hs slf subs d h
      have hhs2 : hs = true := hhs
      have hslf2 : slf = false := hslf
      rw [hd, if_pos ⟨hhs2, hslf2⟩]
      exact (mem_extractSubs s subs).mpr ⟨c, hc, hok, hne⟩

theorem subfolder_pruning_witness :
    (∀ a ∈ subAggs rootAgg, nonEmptyAgg a = true) ∧
    (rootF.hasSubfolders = true → rootF.subListFails = false →
      ∀ c ∈ rootF.subs, ∀ s, extractFolderE c = Except.ok s → nonEmptyAgg s = true →
        s ∈ rootAgg.subfolders) :=
  subfolder_pruning rootF rootAgg rfl

/-! ## C10 -/

theorem pushMessage_messages (d : FolderData) (m : MessageData) :
    (pushMessage d m).messages = d.messages ++ [m] := by
  cases d
  rfl

theorem pushContact_messages (d : FolderData) (c : ContactData) :
    (pushContact d c).messages = d.messages := by
  cases d
  rfl

theorem pushAppointment_messages (d : FolderData) (a : AppointmentData) :
    (pushAppointment d a).messages = d.messages := by
  cases d
  rfl

theorem addSubs_messages (d : FolderData) (l : List FolderData) :
    (addSubs d l).messages = d.messages := by
  cases d
  rfl

theorem classifyDispatch_messages_mem (i : RawItem) (acc : FolderData) (m : MessageData)
    (h : m ∈ (classifyDispatch i acc).messages) :
    m ∈ acc.messages ∨ m = mkRecord i := by
  unfold classifyDispatch at h
  split at h
  · exact Or.inl h
  split_ifs at h
  · exact Or.inl h
  · rw [pushMessage_messages] at h
    rcases List.mem_append.mp h with h1 | h1
    · exact Or.inl h1
    · exact Or.inr (by simpa using h1)
  · rw [pushContact_messages] at h
    exact Or.inl h
  · rw [pushAppointment_messages] at h
    exact Or.inl h
  · exact Or.inl h

theorem runEvents_messages_mem (evs : List ChildEvent) :
    ∀ (acc : FolderData) (m : MessageData), m ∈ (runEvents evs acc).messages →
      m ∈ acc.messages ∨ ∃ i : RawItem, m = mkRecord i := by
  induction evs with
  | nil =>
    intro acc m h
    exact Or.inl h
  | cons e rest ih =>
    intro acc m h
    cases e with
    | fail => exact Or.inl h
    | item i =>
      have h2 := ih _ m h
      rcases h2 with h2 | h2
      · unfold processItemE at h2
        by_cases hf : i.itemFails
        · simp only [hf, if_true] at h2
          exact Or.inl h2
        · simp only [hf, Bool.false_eq_true, if_false] at h2
          rcases classifyDispatch_messages_mem i acc m h2 with h3 | h3
          · exact Or.inl h3
          · exact Or.inr ⟨i, h3⟩
      · exact Or.inr h2

theorem walkerBase_messages (name : String) : (walkerBase name).messages = [] := rfl

theorem walkerContent_messages_mem (name : String) (cc : Nat) (evs : List ChildEvent)
    (m : MessageData) (h : m ∈ (walkerContent cc evs (walkerBase name)).messages) :
    ∃ i : RawItem, m = mkRecord i := by
  unfold walkerContent at h
  by_cases hcc : 0 < cc
  · rw [if_pos hcc] at h
    rcases runEvents_messages_mem evs (walkerBase name) m h with h1 | h1
    · rw [walkerBase_messages] at h1
      simp at h1
    · exact h1
  · rw [if_neg hcc, walkerBase_messages] at h
    simp at h

theorem extract_messages (name : String) (cc : Nat) (evs : List ChildEvent)
    (hs slf : Bool) (subs : List Folder) (d : FolderData)
    (h : extractFolderE (Folder.mk name cc evs hs slf subs) = Except.ok d) :
    d.messages = (walkerContent cc evs (walkerBase name)).messages := by
  have hd : (if hs then
      (if slf then walkerContent cc evs (walkerBase name)
       else addSubs (walkerContent cc evs (walkerBase name)) (extractSubs subs))
      else walkerContent cc evs (walkerBase name)) = d := by
    injection h
  cases hs with
  | true =>
    cases slf with
    | true =>
      have hd2 : walkerContent cc evs (walkerBase name) = d := hd
      rw [← hd2]
    | false =>
      have hd2 : addSubs (walkerContent cc evs (walkerBase name)) (extractSubs subs) = d := hd
      rw [← hd2, addSubs_messages]
  | false =>
    have hd2 : walkerContent cc evs (walkerBase name) = d := hd
    rw [← hd2]

theorem mem_treeMessagesList (m : MessageData) (ds : List FolderData) :
    m ∈ treeMessagesList ds ↔ ∃ s ∈ ds, m ∈ treeMessages s := by
  induction ds with
  | nil => simp [treeMessagesList]
  | cons d rest ih =>
    simp only [treeMessagesList, List.mem_append, ih, List.mem_cons]
    constructor
    · rintro (h | ⟨s, h1, h2⟩)
      · exact ⟨d, Or.inl rfl, h⟩
      · exact ⟨s, Or.inr h1, h2⟩
    · rintro ⟨s, rfl | h1, h2⟩
      · exact Or.inl h2
      · exact Or.inr ⟨s, h1, h2⟩

theorem treeMessages_aux : ∀ (f : Folder) (d : FolderData),
    extractFolderE f = Except.ok d →
    ∀ m ∈ treeMessages d, ∃ i : RawItem, m = mkRecord i := by
  intro f
  induction f using Folder.rec
    (motive_2 := fun l => ∀ c ∈ l, ∀ s, extractFolderE c = Except.ok s →
      ∀ m ∈ treeMessages s, ∃ i : RawItem, m = mkRecord i) with
  | mk name cc evs hs slf subs ih =>
    intro d h m hm
    have hmsg := extract_messages name cc evs hs slf subs d h
    have hsubf := extract_subfolders name cc evs hs slf subs d h
    have htm : treeMessages d = d.messages ++ treeMessagesList d.subfolders := by
      cases d
      rfl
    rw [htm] at hm
    rcases List.mem_append.mp hm with h1 | h1
    · rw [hmsg] at h1
      exact walkerContent_messages_mem name cc evs m h1
    · obtain ⟨s, hs1, hs2⟩ := (mem_treeMessagesList m d.subfolders).mp h1
      rw [hsubf] at hs1
      by_cases hc : hs = true ∧ slf = false
      · rw [if_pos hc] at hs1
        obtain ⟨c, hcmem, hok, -⟩ := (mem_extractSubs s subs).mp hs1
        exact ih c hcmem s hok m hs2
      · rw [if_neg hc] at hs1
        simp at hs1
  | nil =>
    rename_i c hc s hok m hm
    simp at hc
  | cons c0 cs0 ih1 ih2 =>
    rename_i c hc s hok m hm
    rcases List.mem_cons.mp hc with rfl | h2
    · exact ih1 s hok m hm
    · exact ih2 c h2 s hok m hm

theorem mkRecord_subject (i : RawItem) :
    (mkRecord i).subject = sanitizeFilename (if i.subject = "" then "(No Subject)" else i.subject) := rfl

theorem mkRecord_subject_ne (i : RawItem) : (mkRecord i).subject ≠ "" := by
  rw [mkRecord_subject]
  apply sanitizeFilename_ne_empty
  by_cases hsub : i.subject = ""
  · rw [if_pos hsub]
    decide
  · rw [if_neg hsub]
    exact hsub

theorem subject_mem_emlHeaderLines (seed : String) (now : DateV) (m : MessageData) :
    ("Subject: " ++ m.subject) ∈ emlHeaderLines seed now m := by
  rw [emlHeaderLines_filter_eq]
  simp

theorem list_map_id_on {α : Type} (f : α → α) :
    ∀ l : List α, (∀ x ∈ l, f x = x) → l.map f = l := by
  intro l h
  induction l with
  | nil => rfl
  | cons x xs ih =>
    simp only [List.map_cons]
    rw [h x (List.mem_cons_self x xs), ih (fun y hy => h y (List.mem_cons_of_mem _ hy))]

theorem sanitizeFilename_of_clean (s : String)
    (h1 : ∀ c ∈ s.data, isForbidden c = false) (h2 : s.length ≤ 180) :
    sanitizeFilename s = s := by
  have hm : s.data.map (fun c => if isForbidden c then '_' else c) = s.data := by
    apply list_map_id_on
    intro c hc
    rw [h1 c hc]
    simp
  have ht : (s.data).take 180 = s.data := List.take_of_length_le h2
  unfold sanitizeFilename
  rw [hm, ht]

theorem foldl_mem_invariant {α β : Type} (step : List β → α → List β) (P : β → Prop) :
    ∀ l : List α, (∀ acc a, a ∈ l → ∀ pc ∈ step acc a, pc ∈ acc ∨ P pc) →
    ∀ acc, ∀ pc ∈ l.foldl step acc, pc ∈ acc ∨ P pc := by
  intro l
  induction l with
  | nil =>
    intro h acc pc hpc
    exact Or.inl hpc
  | cons a rest ih =>
    intro h acc pc hpc
    simp only [List.foldl_cons] at hpc
    rcases ih (fun acc2 a2 ha2 => h acc2 a2 (List.mem_cons_of_mem _ ha2)) _ pc hpc with h1 | h1
    · rcases h acc a (List.mem_cons_self _ _) pc h1 with h2 | h2
      · exact Or.inl h2
      · exact Or.inr h2
    · exact Or.inr h1

theorem exportAttachments_paths (env : FsEnv) (ap : String) (l : List AttachRec) :
    ∀ pc ∈ exportAttachments env ap l,
      ∃ a ∈ l, pc.1 = pjoin ap (sanitizeFilename a.filename) := by
  intro pc hpc
  unfold exportAttachments at hpc
  have key := foldl_mem_invariant
    (fun acc a =>
      let p := pjoin ap (sanitizeFilename a.filename)
      match writeFileE env p with
      | Except.ok _ => acc ++ [(p, FileContent.bytes a.data)]
      | Except.error _ => acc)
    (fun pc => ∃ a ∈ l, pc.1 = pjoin ap (sanitizeFilename a.filename))
    l
    (by
      intro acc a ha pc2 hpc2
      by_cases hw : env.writeFail (pjoin ap (sanitizeFilename a.filename))
      · simp only [writeFileE, hw, if_true] at hpc2
        exact Or.inl hpc2
      · simp only [writeFileE, hw, Bool.false_eq_true, if_false] at hpc2
        rcases List.mem_append.mp hpc2 with h1 | h1
        · exact Or.inl h1
        · have h2 : pc2 = (pjoin ap (sanitizeFilename a.filename), FileContent.bytes a.data) := by
            simpa using h1
          exact Or.inr ⟨a, ha, by rw [h2]⟩)
    [] pc hpc
  rcases key with h1 | h1
  · simp at h1
  · exact h1

theorem exportMessageE_paths (env : FsEnv) (emailsPath : String) (m : MessageData)
    (ws : List (String × FileContent)) (h : exportMessageE env emailsPath m = Except.ok ws) :
    ws.head? = some (pjoin emailsPath
        (sanitizeFilename (formatDate m.sentDate ++ "_" ++ m.subject ++ ".eml")),
      FileContent.text (createEMLContent env.emlSeed env.now m)) ∧
    ∀ pc ∈ ws.tail, ∃ a ∈ m.attachments,
      pc.1 = pjoin (pjoin (pjoin emailsPath "Attachments") (sanitizeFilename m.subject))
        (sanitizeFilename a.filename) := by
  unfold exportMessageE at h
  by_cases hw : env.writeFail
      (pjoin emailsPath (sanitizeFilename (formatDate m.sentDate ++ "_" ++ m.subject ++ ".eml")))
  · simp [writeFileE, hw] at h
  simp only [writeFileE, hw, Bool.false_eq_true, if_false] at h
  by_cases hatt : m.attachments.length = 0
  · simp only [hatt, if_pos, Except.ok.injEq] at h
    rw [← h]
    constructor
    · rfl
    · intro pc hpc
      simp at hpc
  · simp only [hatt, if_neg, if_false] at h
    by_cases hmk : env.mkdirFail (pjoin (pjoin emailsPath "Attachments") (sanitizeFilename m.subject))
    · simp [mkdirE, hmk] at h
    simp only [mkdirE, hmk, Bool.false_eq_true, if_false, Except.ok.injEq] at h
    rw [← h]
    constructor
    · rfl
    · intro pc hpc
      have hpc2 : pc ∈ exportAttachments env
          (pjoin (pjoin emailsPath "Attachments") (sanitizeFilename m.subject)) m.attachments := by
        simpa using hpc
      exact exportAttachments_paths env _ m.attachments pc hpc2

/-- C10 (amended): every MessageRecord anywhere in an extracted tree carries
a subject that was passed through the sanitizer after defaulting: it is
non-empty, free of `< > : " / \ | ? *`, at most 180 characters, equal to the
sanitized form of some raw subject (the original is not preserved), and it is
the exact string in the serialized `Subject:` header line.  It is the string
export filenames are built from: re-sanitizing it is the identity, so it
reappears verbatim as the `Attachments/<subject>` directory segment of every
attachment written for the message, while the `.eml` filename is one further
sanitize-and-truncate pass over `<date>_<subject>.eml` — whose 180-character
cap can cut a long subject, so the subject need not appear verbatim there. -/
theorem walker_subject_invariant (f : Folder) (d : FolderData)
    (h : extractFolderE f = Except.ok d) :
    ∀ m ∈ treeMessages d,
      m.subject ≠ "" ∧
      (∀ c ∈ m.subject.data, isForbidden c = false) ∧
      m.subject.length ≤ 180 ∧
      (∃ raw, m.subject = sanitizeFilename (if raw = "" then "(No Subject)" else raw)) ∧
      (∀ seed now, ("Subject: " ++ m.subject) ∈ emlHeaderLines seed now m) ∧
      sanitizeFilename m.subject = m.subject ∧
      (∀ env emailsPath ws, exportMessageE env emailsPath m = Except.ok ws →
        ws.head? = some (pjoin emailsPath
            (sanitizeFilename (formatDate m.sentDate ++ "_" ++ m.subject ++ ".eml")),
          FileContent.text (createEMLContent env.emlSeed env.now m)) ∧
        ∀ pc ∈ ws.tail, ∃ a ∈ m.attachments,
          pc.1 = pjoin (pjoin (pjoin emailsPath "Attachments") m.subject)
            (sanitizeFilename a.filename)) := by
  intro m hm
  obtain ⟨i, rfl⟩ := treeMessages_aux f d h m hm
  have hclean : ∀ c ∈ (mkRecord i).subject.data, isForbidden c = false := by
    rw [mkRecord_subject]
    exact sanitizeFilename_clean _
  have hlen : (mkRecord i).subject.length ≤ 180 := by
    rw [mkRecord_subject]
    exact sanitizeFilename_len _
  have hid : sanitizeFilename (mkRecord i).subject = (mkRecord i).subject :=
    sanitizeFilename_of_clean _ hclean hlen
  refine ⟨mkRecord_subject_ne i, hclean, hlen, ⟨i.subject, mkRecord_subject i⟩,
    fun seed now => subject_mem_emlHeaderLines seed now (mkRecord i), hid, ?_⟩
  intro env emailsPath ws hws
  obtain ⟨h1, h2⟩ := exportMessageE_paths env emailsPath (mkRecord i) ws hws
  rw [hid] at h2
  exact ⟨h1, h2⟩

theorem walker_subject_invariant_witness :
    (mkRecord noteItem).subject ≠ "" ∧
    (∀ c ∈ (mkRecord noteItem).subject.data, isForbidden c = false) ∧
    (mkRecord noteItem).subject.length ≤ 180 ∧
    (∃ raw, (mkRecord noteItem).subject = sanitizeFilename (if raw = "" then "(No Subject)" else raw)) ∧
    (∀ seed now, ("Subject: " ++ (mkRecord noteItem).subject) ∈
      emlHeaderLines seed now (mkRecord noteItem)) ∧
    sanitizeFilename (mkRecord noteItem).subject = (mkRecord noteItem).subject ∧
    (∀ env emailsPath ws, exportMessageE env emailsPath (mkRecord noteItem) = Except.ok ws →
      ws.head? = some (pjoin emailsPath
          (sanitizeFilename (formatDate (mkRecord noteItem).sentDate ++ "_" ++
            (mkRecord noteItem).subject ++ ".eml")),
        FileContent.text (createEMLContent env.emlSeed env.now (mkRecord noteItem))) ∧
      ∀ pc ∈ ws.tail, ∃ a ∈ (mkRecord noteItem).attachments,
        pc.1 = pjoin (pjoin (pjoin emailsPath "Attachments") (mkRecord noteItem).subject)
          (sanitizeFilename a.filename)) :=
  walker_subject_invariant rootF rootAgg rfl (mkRecord noteItem) (by decide)

set_option maxRecDepth 8000 in
/-- C10 counterexample: a walker-produced message whose sanitized subject is
180 characters long.  The exporter writes its EML file at a path built by
re-sanitizing `<date>_<subject>.eml`, whose truncation to 180 characters cuts
the subject: the stored subject is not a substring of the written path, so
the subject does not appear in that export filename. -/
theorem export_filename_truncates_subject :
    extractFolderE longFolder = Except.ok longAgg ∧
    (mkRecord longItem).subject.length = 180 ∧
    exportMessageE envAll "E" (mkRecord longItem) =
      Except.ok [(longPath,
        FileContent.text (createEMLContent envAll.emlSeed envAll.now (mkRecord longItem)))] ∧
    hasSubstr longPath (mkRecord longItem).subject = false :=
  ⟨rfl, by decide, rfl, by decide⟩

/-! ## C3 -/

theorem mkdirE_ok (env : FsEnv) (hmk : ∀ p, env.mkdirFail p = false) :
    ∀ p, mkdirE env p = Except.ok () := by
  intro p
  simp [mkdirE, hmk]

theorem exportContactsE_ok (env : FsEnv) (cp : String) (l : List ContactData)
    (h : ∀ c ∈ l, env.writeFail (pjoin cp (sanitizeFilename (c.fullName ++ ".vcf"))) = false) :
    ∃ ws, exportContactsE env cp l = Except.ok ws := by
  induction l with
  | nil => exact ⟨[], rfl⟩
  | cons c rest ih =>
    obtain ⟨ws, hws⟩ := ih (fun x hx => h x (List.mem_cons_of_mem c hx))
    have hw := h c (List.mem_cons_self c rest)
    exact ⟨(pjoin cp (sanitizeFilename (c.fullName ++ ".vcf")), FileContent.text (createVCardContent c)) :: ws,
      by simp [exportContactsE, writeFileE, hw, hws]⟩

theorem exportAppointmentsE_ok (env : FsEnv) (cp : String) (l : List AppointmentData)
    (h : ∀ a ∈ l, env.writeFail
      (pjoin cp (sanitizeFilename (formatDate a.startTime ++ "_" ++ a.subject ++ ".ics"))) = false) :
    ∃ ws, exportAppointmentsE env cp l = Except.ok ws := by
  induction l with
  | nil => exact ⟨[], rfl⟩
  | cons a rest ih =>
    obtain ⟨ws, hws⟩ := ih (fun x hx => h x (List.mem_cons_of_mem a hx))
    have hw := h a (List.mem_cons_self a rest)
    exact ⟨(pjoin cp (sanitizeFilename (formatDate a.startTime ++ "_" ++ a.subject ++ ".ics")),
        FileContent.text (createICalContent a)) :: ws,
      by simp [exportAppointmentsE, writeFileE, hw, hws]⟩

theorem fatalPathsList_cons (d : FolderData) (ds : List FolderData) (fp : String) :
    fatalPathsList (d :: ds) fp = fatalPaths d fp ++ fatalPathsList ds fp := rfl

theorem export_ok_aux (env : FsEnv) (hmk : ∀ p, env.mkdirFail p = false) :
    ∀ (data : FolderData) (base : String),
      (∀ p ∈ fatalPaths data base, env.writeFail p = false) →
      ∃ ws, exportToFilesE env data base = Except.ok ws := by
  have hmd := mkdirE_ok env hmk
  intro data
  induction data using FolderData.rec
    (motive_2 := fun ds => ∀ fp, (∀ p ∈ fatalPathsList ds fp, env.writeFail p = false) →
      ∃ ws, exportSubsE env ds fp = Except.ok ws) with
  | mk name ms cs as ss ih =>
    intro base hw
    have hfp : fatalPaths (FolderData.mk name ms cs as ss) base =
        cs.map (fun c => pjoin (pjoin (pjoin base (sanitizeFilename name)) "Contacts")
          (sanitizeFilename (c.fullName ++ ".vcf")))
        ++ as.map (fun a => pjoin (pjoin (pjoin base (sanitizeFilename name)) "Calendar")
          (sanitizeFilename (formatDate a.startTime ++ "_" ++ a.subject ++ ".ics")))
        ++ fatalPathsList ss (pjoin base (sanitizeFilename name)) := rfl
    rw [hfp] at hw
    have hwc : ∀ c ∈ cs, env.writeFail (pjoin (pjoin (pjoin base (sanitizeFilename name)) "Contacts")
        (sanitizeFilename (c.fullName ++ ".vcf"))) = false := by
      intro c hc
      exact hw _ (List.mem_append_left _ (List.mem_append_left _ (List.mem_map_of_mem _ hc)))
    have hwa : ∀ a ∈ as, env.writeFail (pjoin (pjoin (pjoin base (sanitizeFilename name)) "Calendar")
        (sanitizeFilename (formatDate a.startTime ++ "_" ++ a.subject ++ ".ics"))) = false := by
      intro a ha
      exact hw _ (List.mem_append_left _ (List.mem_append_right _ (List.mem_map_of_mem _ ha)))
    have hws2 : ∀ p ∈ fatalPathsList ss (pjoin base (sanitizeFilename name)),
        env.writeFail p = false := by
      intro p hp
      exact hw _ (List.mem_append_right _ hp)
    obtain ⟨wsc, hwsc⟩ :=
      exportContactsE_ok env (pjoin (pjoin base (sanitizeFilename name)) "Contacts") cs hwc
    obtain ⟨wsa, hwsa⟩ :=
      exportAppointmentsE_ok env (pjoin (pjoin base (sanitizeFilename name)) "Calendar") as hwa
    obtain ⟨wss, hwss⟩ := ih (pjoin base (sanitizeFilename name)) hws2
    by_cases hms : ms.length = 0 <;> by_cases hcs : cs.length = 0 <;> by_cases has : as.length = 0 <;>
      exact ⟨_, by (simp [exportToFilesE, hmd, hms, hcs, has, hwsc, hwsa, hwss]) <;> rfl⟩
  | nil =>
    rename_i fp h
    exact ⟨[], rfl⟩
  | cons d ds ih1 ih2 =>
    rename_i fp h
    rw [fatalPathsList_cons] at h
    obtain ⟨w1, hw1⟩ := ih1 fp (fun p hp => h p (List.mem_append_left _ hp))
    obtain ⟨w2, hw2⟩ := ih2 fp (fun p hp => h p (List.mem_append_right _ hp))
    exact ⟨w1 ++ w2, by simp [exportSubsE, hw1, hw2]⟩

/-- C3 (amended): a failure writing a single message file or attachment file
is caught at that item and export continues — if no directory creation fails
and no contact or appointment write fails, the export completes normally no
matter which message or attachment writes fail; but a failure writing a
contact or appointment file (like a directory-creation failure) propagates
and aborts the export for that mailbox file. -/
theorem export_item_faults (env : FsEnv) (data : FolderData) (base : String)
    (hmk : ∀ p, env.mkdirFail p = false)
    (hw : ∀ p ∈ fatalPaths data base, env.writeFail p = false) :
    ∃ ws, exportToFilesE env data base = Except.ok ws :=
  export_ok_aux env hmk data base hw

theorem export_item_faults_witness :
    ∃ ws, exportToFilesE envC3w dataC3w "out" = Except.ok ws :=
  export_item_faults envC3w dataC3w "out" (fun p => rfl) (by decide)

/-- C3 counterexample: a folder holding a single contact whose write fails
(no other operation fails anywhere): the claim says the item is skipped and
export continues, but the contact loop has no per-item catch, so the whole
export aborts with the write error. -/
theorem export_contact_write_aborts :
    exportToFilesE envC3 dataC3 "out" = Except.error ("write " ++ contactPathC3) := rfl
